import Mathlib

/-
Verification of the super-dorota-game server (src/server.py) against its
natural-language specification. The Python module is shallowly embedded:
the module-level globals (game_state, players, questions, answers) become
the fields of `ServerState`; each handle_* function becomes a pure
function from a state to a `HandlerResult` carrying the successor state,
the messages sent (recipient id paired with payload), the successive
values assigned to the global game_state during the call, and whether an
uncaught Python exception escaped the handler body. The deque `players`
is a list whose head is the left end of the deque, so deque.append is
`++ [p]`, deque.appendleft is `p :: l`, deque.pop takes the last element
and players[0] is the head. Python object identity between a connection's
Player object and the entries of the deque is modelled by equality of the
(randomly generated, per-connection) id strings.
-/

/-- The GameState enum of server.py (lines 19-23). -/
inductive GameState where
  | LOBBY
  | PREPARATION
  | MAIN
  | ENDED
deriving DecidableEq, Repr

/-- A Player object (server.py lines 26-41): id, display name, ready flag
and score. The client socket handle is identified with the id. -/
structure Player where
  id : String
  name : String
  ready : Bool
  score : Nat
deriving DecidableEq, Repr

/-- The JSON messages the server sends, with the fields the claims reason
about. Player listings are (id, name, ready) triples, score listings are
(id, name, score) triples, mirroring the dict literals in server.py. -/
inductive Msg where
  | Joined (playerId : String)
  | LobbyUpdated (players : List (String × String × Bool))
  | PreparationStarted (players : List (String × String × Bool))
      (numQuestions : Nat) (numAnswers : Nat)
  | MainStarted (players : List (String × String))
  | NewTurn (yourTurn : Bool) (currentPlayer : String × String)
      (question : String) (answer : Option String)
  | UpdateScore (scores : List (String × String × Nat)) (winner : String × String)
  | GameOver (scores : List (String × String × Nat)) (winner : String × String × Nat)
deriving DecidableEq, Repr

/-- The module-level mutable globals of server.py (lines 44-48). -/
structure ServerState where
  gameState : GameState
  players : List Player
  questions : List String
  answers : List String
deriving DecidableEq, Repr

/-- The value of the globals right after module initialisation. -/
def initial_state : ServerState := ⟨GameState.LOBBY, [], [], []⟩

/-- Outcome of running one handler body: the globals as mutated when the
body finished (or when an exception was raised), the (recipient id,
message) pairs sent so far, the successive values assigned to the global
game_state during the call, and whether an exception escaped the body. -/
structure HandlerResult where
  state : ServerState
  sent : List (String × Msg)
  trace : List GameState
  raised : Bool
deriving DecidableEq, Repr

/-- broadcast (server.py lines 225-229): send one message to every player
of the given list. -/
def broadcast (ps : List Player) (m : Msg) : List (String × Msg) :=
  ps.map fun p => (p.id, m)

/-- The players list serialised as in the LobbyUpdated / PreparationStarted
payloads (id, name, ready). -/
def lobbyPlayerList (ps : List Player) : List (String × String × Bool) :=
  ps.map fun p => (p.id, p.name, p.ready)

/-- reset_game (server.py lines 139-144): back to LOBBY, clear the pools
and the player ring. -/
def reset_game (s : ServerState) : ServerState :=
  { s with gameState := GameState.LOBBY, players := [], questions := [], answers := [] }

/-- The assignment game_state = GameState.ENDED opening summarize_game
(server.py line 210). -/
def set_ended (s : ServerState) : ServerState :=
  { s with gameState := GameState.ENDED }

/-- Stable insertion of a player into a score-descending list: x goes in
front of the first entry whose score is not larger than x's. -/
def insert_desc (x : Player) : List Player → List Player
  | [] => [x]
  | y :: ys => if x.score < y.score then y :: insert_desc x ys else x :: y :: ys

/-- Python's sorted(players, key=score, reverse=True) (server.py line 211):
a stable sort, descending by score, ties keeping their original order. -/
def sorted_by_score_desc : List Player → List Player
  | [] => []
  | x :: xs => insert_desc x (sorted_by_score_desc xs)

/-- handle_Join (server.py lines 81-99). Outside LOBBY the handler returns
at once, touching nothing. In LOBBY it resets the sender's flags, sets the
name, appends the sender to the ring when absent (Python object identity
is modelled by id equality), replies Joined and broadcasts the roster. -/
def handle_Join (sender : Player) (username : String) (s : ServerState) : HandlerResult :=
  if s.gameState ≠ GameState.LOBBY then ⟨s, [], [], false⟩
  else
    let updated : Player := ⟨sender.id, username, false, 0⟩
    let ps :=
      if s.players.any (fun p => p.id = sender.id) then
        s.players.map fun p => if p.id = sender.id then updated else p
      else s.players ++ [updated]
    ⟨{ s with players := ps },
      (sender.id, Msg.Joined sender.id) :: broadcast ps (Msg.LobbyUpdated (lobbyPlayerList ps)),
      [], false⟩

/-- handle_SetReady (server.py lines 102-124). Sets the sender's ready
flag, broadcasts the roster, and - with no phase guard in the source -
moves to PREPARATION and broadcasts the quotas 2 and 2*(N-1) whenever at
least three players are present and all are ready. -/
def handle_SetReady (senderId : String) (ready : Bool) (s : ServerState) : HandlerResult :=
  let ps := s.players.map fun p => if p.id = senderId then { p with ready := ready } else p
  let upd := broadcast ps (Msg.LobbyUpdated (lobbyPlayerList ps))
  if 3 ≤ ps.length ∧ ps.all (fun p => p.ready) then
    ⟨⟨GameState.PREPARATION, ps, s.questions, s.answers⟩,
      upd ++ broadcast ps
        (Msg.PreparationStarted (lobbyPlayerList ps) 2 (2 * (ps.length - 1))),
      [GameState.PREPARATION], false⟩
  else ⟨{ s with players := ps }, upd, [], false⟩

/-- The loop body of play_turn (server.py lines 189-197) together with the
final send to the current player (lines 198-205): walk the non-current
players in ring order, popping one answer from the end of the answer pool
for each; popping an empty pool raises IndexError, leaving the pops and
sends made so far in place. Returns (remaining answers, sent, raised). -/
def play_turn_loop (c : Player) (q : String) :
    List Player → List String → List (String × Msg) →
      List String × List (String × Msg) × Bool
  | [], ans, acc =>
      (ans, acc ++ [(c.id, Msg.NewTurn true (c.id, c.name) q none)], false)
  | p :: rest, ans, acc =>
      match ans.getLast? with
      | none => (ans, acc, true)
      | some a =>
          play_turn_loop c q rest ans.dropLast
            (acc ++ [(p.id, Msg.NewTurn false (c.id, c.name) q (some a))])

/-- play_turn (server.py lines 185-205): pop one question from the end of
the pool, pop the current player from the tail of the ring and push them
back on the head, send every remaining player a decoy NewTurn and the
current player an answerless NewTurn. Empty pops raise IndexError. -/
def play_turn (s : ServerState) : HandlerResult :=
  match s.questions.getLast? with
  | none => ⟨s, [], [], true⟩
  | some q =>
      let s1 := { s with questions := s.questions.dropLast }
      match s1.players.getLast? with
      | none => ⟨s1, [], [], true⟩
      | some c =>
          let rest := s1.players.dropLast
          let out := play_turn_loop c q rest s1.answers []
          ⟨{ s1 with players := c :: rest, answers := out.1 }, out.2.1, [], out.2.2⟩

/-- init_game (server.py lines 147-164): recompute the entry thresholds
from the CURRENT player count; when both pools are large enough, broadcast
MainStarted, set MAIN, shuffle ring and pools (the permutations chosen by
random.shuffle are passed in as parameters) and play the first turn. -/
def init_game (shufP : List Player → List Player)
    (shufQ shufA : List String → List String) (s : ServerState) : HandlerResult :=
  let n := s.players.length
  if 2 * n ≤ s.questions.length ∧ 2 * n * (n - 1) ≤ s.answers.length then
    let started := broadcast s.players (Msg.MainStarted (s.players.map fun p => (p.id, p.name)))
    let s1 : ServerState := ⟨GameState.MAIN, shufP s.players, shufQ s.questions, shufA s.answers⟩
    let r := play_turn s1
    ⟨r.state, started ++ r.sent, GameState.MAIN :: r.trace, r.raised⟩
  else ⟨s, [], [], false⟩

/-- handle_AddQuestions (server.py lines 127-130): extend the question
pool, then run the init_game check. -/
def handle_AddQuestions (shufP : List Player → List Player)
    (shufQ shufA : List String → List String)
    (qs : List String) (s : ServerState) : HandlerResult :=
  init_game shufP shufQ shufA { s with questions := s.questions ++ qs }

/-- handle_AddAnswers (server.py lines 133-136): extend the answer pool,
then run the init_game check. -/
def handle_AddAnswers (shufP : List Player → List Player)
    (shufQ shufA : List String → List String)
    (ans : List String) (s : ServerState) : HandlerResult :=
  init_game shufP shufQ shufA { s with answers := s.answers ++ ans }

/-- The statement winner.score += 1 of handle_Vote (line 170): `winner` is
the first ring entry whose id matches, and the increment mutates that
entry in place. -/
def bump_first (wid : String) : List Player → List Player
  | [] => []
  | p :: ps =>
      if p.id = wid then { p with score := p.score + 1 } :: ps
      else p :: bump_first wid ps

/-- summarize_game (server.py lines 208-221): set ENDED, rank the players
with Python's stable sort (descending by score), broadcast GameOver to the
ring, then reset_game back to LOBBY. An empty ring makes ordered[0] raise
IndexError after ENDED was already assigned. -/
def summarize_game (s : ServerState) : HandlerResult :=
  let s1 := set_ended s
  let ordered := sorted_by_score_desc s1.players
  match ordered with
  | [] => ⟨s1, [], [GameState.ENDED], true⟩
  | w :: _ =>
      ⟨reset_game s1,
        broadcast s1.players
          (Msg.GameOver (ordered.map fun p => (p.id, p.name, p.score)) (w.id, w.name, w.score)),
        [GameState.ENDED, GameState.LOBBY], false⟩

/-- handle_Vote (server.py lines 167-183): only when the sender is
players[0] (the ring head): find the voted player (StopIteration when the
id is unknown), increment their score, broadcast UpdateScore, then play
the next turn when questions remain, else summarise. With an empty ring,
players[0] itself raises IndexError. Any other sender: silent no-op. -/
def handle_Vote (sender : Player) (wid : String) (s : ServerState) : HandlerResult :=
  match s.players with
  | [] => ⟨s, [], [], true⟩
  | h0 :: _ =>
      if sender.id = h0.id then
        match s.players.find? (fun p => p.id == wid) with
        | none => ⟨s, [], [], true⟩
        | some w =>
            let ps := bump_first wid s.players
            let s1 := { s with players := ps }
            let upd := broadcast ps
              (Msg.UpdateScore (ps.map fun p => (p.id, p.name, p.score)) (w.id, w.name))
            if s.questions.length = 0 then
              let r := summarize_game s1
              ⟨r.state, upd ++ r.sent, r.trace, r.raised⟩
            else
              let r := play_turn s1
              ⟨r.state, upd ++ r.sent, r.trace, r.raised⟩
      else ⟨s, [], [], false⟩

/-- The inbound client messages, tagged as the dispatch loop sees their
op field. `Other op` stands for any op name with no handle_* function in
the module (the module defines exactly handle_Join, handle_SetReady,
handle_AddQuestions, handle_AddAnswers and handle_Vote). -/
inductive ClientMsg where
  | Join (username : String)
  | SetReady (ready : Bool)
  | AddQuestions (questions : List String)
  | AddAnswers (answers : List String)
  | Vote (winner : String)
  | Other (op : String)
deriving DecidableEq, Repr

/-- The op names for which globals() holds a handle_ function. -/
def known_ops : List String :=
  ["Join", "SetReady", "AddQuestions", "AddAnswers", "Vote"]

/-- One iteration of the read loop of client_connected (server.py lines
55-72) for one decoded message: an unknown op makes the globals() lookup
raise KeyError, which is printed, nothing is sent and the loop goes on; a
known op runs its handler under `try ... except Exception`, so a raising
handler has its exception caught (and logged) and the loop also goes on. -/
structure StepResult where
  state : ServerState
  sent : List (String × Msg)
  trace : List GameState
  caughtExc : Bool
  loopContinues : Bool
deriving DecidableEq, Repr

/-- Wrap a handler outcome in the per-command try/except boundary of the
read loop: any raised exception is caught and logged, never propagated. -/
def guard_handler (r : HandlerResult) : StepResult :=
  ⟨r.state, r.sent, r.trace, r.raised, true⟩

/-- The dispatch step `callback = globals()['handle_' + data['op']]` plus
the guarded callback invocation (server.py lines 64-72). -/
def dispatch (shufP : List Player → List Player)
    (shufQ shufA : List String → List String)
    (sender : Player) (m : ClientMsg) (s : ServerState) : StepResult :=
  match m with
  | ClientMsg.Join u => guard_handler (handle_Join sender u s)
  | ClientMsg.SetReady b => guard_handler (handle_SetReady sender.id b s)
  | ClientMsg.AddQuestions qs => guard_handler (handle_AddQuestions shufP shufQ shufA qs s)
  | ClientMsg.AddAnswers ans => guard_handler (handle_AddAnswers shufP shufQ shufA ans s)
  | ClientMsg.Vote w => guard_handler (handle_Vote sender w s)
  | ClientMsg.Other _ => ⟨s, [], [], false, true⟩

/-- The first occurrence removal players.remove(player) of the disconnect
cleanup (server.py line 74), keyed by id. -/
def remove_player (pid : String) : List Player → List Player
  | [] => []
  | p :: ps => if p.id = pid then ps else p :: remove_player pid ps

/-- The cleanup after the read loop of client_connected (server.py lines
73-77): drop the player from the ring; when the ring empties, reset the
whole game. -/
def on_disconnect (pid : String) (s : ServerState) : ServerState :=
  let ps := remove_player pid s.players
  if ps = [] then reset_game { s with players := ps }
  else { s with players := ps }

/-- The 4-byte big-endian length header produced by
len(data).to_bytes(4, 'big') in send_json (server.py line 234); the
source raises OverflowError for lengths of 2^32 and beyond, which the
encoder below rules out before this function is used. -/
def int_to_bytes4 (n : Nat) : List Nat :=
  [n / 2 ^ 24 % 256, n / 2 ^ 16 % 256, n / 2 ^ 8 % 256, n % 256]

/-- int.from_bytes(size, 'big') of recv_json (server.py line 240). -/
def int_from_bytes (bs : List Nat) : Nat :=
  bs.foldl (fun acc b => acc * 256 + b) 0

/-- The framing encoder of send_json (server.py lines 232-235): the
payload length as a 4-byte big-endian unsigned integer, then the payload
bytes; a payload too long for 4 bytes raises OverflowError (none). -/
def encode (payload : List Nat) : Option (List Nat) :=
  if payload.length < 2 ^ 32 then some (int_to_bytes4 payload.length ++ payload)
  else none

/-- The framing decoder of recv_json (server.py lines 238-246): read 4
length bytes, raise ConnectionResetError on a zero length (none), then
read exactly that many payload bytes; a stream too short to serve the
reads blocks forever (none). -/
def decode (stream : List Nat) : Option (List Nat) :=
  if stream.length < 4 then none
  else
    let size := int_from_bytes (stream.take 4)
    if size = 0 then none
    else if stream.length < 4 + size then none
    else some ((stream.drop 4).take size)

/-- Python equality between an id string and a Player object, as evaluated
by the membership test of Player.__init__ (server.py line 30): neither
str nor Player defines a cross-type __eq__, so == falls back to object
identity, and a str object is never a Player object - the comparison is
False whatever the player's id holds. -/
def py_str_eq_player (_ : String) (_ : Player) : Bool := false

/-- The test `self.id not in players` (negated here: `in`) of
Player.__init__: elementwise Python equality of the id string against the
Player objects of the deque. -/
def id_in_players (i : String) (ps : List Player) : Bool :=
  ps.any (py_str_eq_player i)

/-- The id-assignment loop of Player.__init__ (server.py lines 28-30),
driven by the stream of ids random.choices would return: draw until the
drawn id is not `in players`, then keep it. -/
def draw_id (draws : List String) (ps : List Player) : Option String :=
  match draws with
  | [] => none
  | d :: rest => if id_in_players d ps then draw_id rest ps else some d

/-- A freshly connected client's Player object before any Join: the drawn
id, empty name, not ready, score 0 (server.py lines 27-34, 53). -/
def mk_player (pid : String) : Player := ⟨pid, "", false, 0⟩

/-- A sequence of Join commands, one per listed connection id, each using
its id as the username. Only the resulting globals are kept. -/
def join_all (ids : List String) (s : ServerState) : ServerState :=
  ids.foldl (fun t pid => (handle_Join (mk_player pid) pid t).state) s

/-- The roster built by joining `ids` in order and then processing
SetReady(true) from the players listed in `done`. -/
def lobby_roster (ids done : List String) : List Player :=
  ids.map fun i => ⟨i, i, decide (i ∈ done), 0⟩

/-- A sequence of SetReady(true) commands from the listed senders, in
order. Returns the final globals, how many of the steps assigned
PREPARATION to game_state, and every message sent along the way. -/
def ready_run : List String → ServerState → ServerState × Nat × List (String × Msg)
  | [], s => (s, 0, [])
  | pid :: rest, s =>
      let r := handle_SetReady pid true s
      let rec_out := ready_run rest r.state
      (rec_out.1, r.trace.count GameState.PREPARATION + rec_out.2.1, r.sent ++ rec_out.2.2)

/-- Sample ring entry: id P1, two points. -/
def p1 : Player := ⟨"P1", "ann", false, 2⟩

/-- Sample ring entry: id P2, one point. -/
def p2 : Player := ⟨"P2", "bob", false, 1⟩

/-- Sample ring entry: id P3, two points (a tie with p1). -/
def p3 : Player := ⟨"P3", "cat", false, 2⟩

/-- A MAIN-phase state about to play a turn: ring P1 P2 P3 (head P1, tail
P3), one question, exactly enough answers for the two non-current
players. -/
def turn_state : ServerState :=
  ⟨GameState.MAIN, [p1, p2, p3], ["q0"], ["a1", "a2"]⟩

/-- A MAIN-phase state whose answer pool is one short for the turn. -/
def starve_state : ServerState :=
  ⟨GameState.MAIN, [p1, p2, p3], ["q0"], ["a1"]⟩

/-- A MAIN-phase state with questions left, ready for a mid-game vote. -/
def vote_state : ServerState :=
  ⟨GameState.MAIN, [p1, p2, p3], ["q0", "q1"], ["a1", "a2", "a3"]⟩

/-- A MAIN-phase state whose question pool is exhausted: the next valid
vote is the deciding one. -/
def last_vote_state : ServerState :=
  ⟨GameState.MAIN, [p1, p2, p3], [], []⟩

/-- Three players A, B, C join a fresh server. -/
def c2_join : ServerState := join_all ["A", "B", "C"] initial_state

/-- All three then send SetReady(true): PREPARATION begins with N = 3. -/
def c2_prep : ServerState := (ready_run ["A", "B", "C"] c2_join).1

/-- Player C's connection closes during PREPARATION: the ring shrinks to
two players. -/
def c2_depart : ServerState := on_disconnect "C" c2_prep

/-- The remaining players submit four questions in total. -/
def c2_q : HandlerResult := handle_AddQuestions id id id ["q1", "q2", "q3", "q4"] c2_depart

/-- The remaining players submit four answers in total. -/
def c2_final : HandlerResult := handle_AddAnswers id id id ["a1", "a2", "a3", "a4"] c2_q.state

theorem play_turn_gameState (s : ServerState) :
    (play_turn s).state.gameState = s.gameState := by
  unfold play_turn
  split
  · rfl
  · dsimp only
    split
    · rfl
    · rfl

theorem broadcast_mem (ps : List Player) (m : Msg) (i : String)
    (h : i ∈ ps.map Player.id) : (i, m) ∈ broadcast ps m := by
  unfold broadcast
  rcases List.mem_map.mp h with ⟨p, hp, hpi⟩
  exact List.mem_map.mpr ⟨p, hp, by rw [hpi]⟩

/-- C10: outside LOBBY the Join handler returns before touching any
state: the globals are unchanged, no message is sent, the phase never
reassigned, no exception raised. -/
theorem join_noop_outside_lobby (sender : Player) (u : String) (s : ServerState)
    (h : s.gameState ≠ GameState.LOBBY) :
    handle_Join sender u s = ⟨s, [], [], false⟩ := by
  simp [handle_Join, h]

theorem join_noop_outside_lobby_wit :
    vote_state.gameState ≠ GameState.LOBBY
    ∧ handle_Join p1 "zoe" vote_state = ⟨vote_state, [], [], false⟩ :=
  ⟨by decide, join_noop_outside_lobby p1 "zoe" vote_state (by decide)⟩

/-- C6: the collision check of Player.__init__ compares the drawn id
STRING against the Player OBJECTS of the deque, a test that is always
False in Python, so a draw colliding with a registered player's id is
accepted on the spot and the registry ends up with two players sharing
an id. -/
theorem duplicate_id_accepted :
    draw_id ["AAAAA"] [⟨"AAAAA", "ann", false, 0⟩] = some "AAAAA"
    ∧ "AAAAA" ∈ ([⟨"AAAAA", "ann", false, 0⟩] : List Player).map Player.id := by
  decide

/-- C8 (amended): an inbound message with an unrecognized op name makes
the globals() lookup raise KeyError, which is only printed: no reply of
any kind is sent, the state is untouched, and the read loop continues
(the connection stays open). -/
theorem unknown_op_ignored (shufP : List Player → List Player)
    (shufQ shufA : List String → List String)
    (sender : Player) (op : String) (s : ServerState) :
    (dispatch shufP shufQ shufA sender (ClientMsg.Other op) s).sent = []
    ∧ (dispatch shufP shufQ shufA sender (ClientMsg.Other op) s).loopContinues = true
    ∧ (dispatch shufP shufQ shufA sender (ClientMsg.Other op) s).state = s := by
  exact ⟨rfl, rfl, rfl⟩

/-- C8 counterexample: dispatching the unknown op Shout sends no message
at all - in particular no Error(InvalidCommand) rejection reply - while
the loop indeed continues. -/
theorem unknown_op_cex :
    (dispatch id id id p1 (ClientMsg.Other "Shout") vote_state).sent = []
    ∧ (dispatch id id id p1 (ClientMsg.Other "Shout") vote_state).loopContinues = true := by
  decide

/-- C9 counterexample: a valid vote in a MAIN state whose answer pool is
one short makes play_turn raise IndexError mid-turn, but the read loop's
per-command try/except catches it and continues - the process does not
terminate. -/
theorem answer_underflow_cex :
    (handle_Vote p1 "P2" starve_state).raised = true
    ∧ (dispatch id id id p1 (ClientMsg.Vote "P2") starve_state).caughtExc = true
    ∧ (dispatch id id id p1 (ClientMsg.Vote "P2") starve_state).loopContinues = true := by
  decide

/-- C4 counterexample: with ring P1 P2 P3 (head P1), the turn engine makes
P3 - the TAIL - the current player (P3 receives the your-turn notice), and
after the turn the ring is P3 P1 P2: the acting player sits at the head,
not at the tail. -/
theorem turn_rotation_cex :
    turn_state.players.map Player.id = ["P1", "P2", "P3"]
    ∧ (play_turn turn_state).sent.getLast?
        = some ("P3", Msg.NewTurn true ("P3", "cat") "q0" none)
    ∧ (play_turn turn_state).state.players.map Player.id = ["P3", "P1", "P2"] := by
  decide

/-- C2 counterexample: the game enters PREPARATION with N = 3 players
(threshold 2N = 6 questions), player C then disconnects, and submitting
only 4 questions and 4 answers fires the MAIN transition, because
init_game recomputes the thresholds from the CURRENT count 2. -/
theorem preparation_quota_cex :
    c2_prep.gameState = GameState.PREPARATION
    ∧ c2_prep.players.length = 3
    ∧ c2_q.state.gameState = GameState.PREPARATION
    ∧ c2_q.state.questions.length = 4
    ∧ c2_final.state.gameState = GameState.MAIN
    ∧ c2_q.state.questions.length < 2 * 3 := by
  decide

/-- C2 (amended): from PREPARATION, a submission fires the MAIN
transition exactly when the pools reach 2·N' questions and 2·N'·(N'-1)
answers for N' the player count AT THE MOMENT OF THE CHECK (departures
shrink it; it is not fixed when PREPARATION began). -/
theorem main_entry_guard (shufP : List Player → List Player)
    (shufQ shufA : List String → List String) (s : ServerState)
    (h : s.gameState = GameState.PREPARATION) :
    ((init_game shufP shufQ shufA s).state.gameState = GameState.MAIN
      ↔ (2 * s.players.length ≤ s.questions.length
          ∧ 2 * s.players.length * (s.players.length - 1) ≤ s.answers.length)) := by
  unfold init_game
  by_cases hg : 2 * s.players.length ≤ s.questions.length
      ∧ 2 * s.players.length * (s.players.length - 1) ≤ s.answers.length
  · simp only [if_pos hg]
    simpa [play_turn_gameState] using hg
  · simp only [if_neg hg]
    simp [h, hg]

theorem main_entry_guard_wit :
    c2_depart.gameState = GameState.PREPARATION
    ∧ ((init_game id id id c2_depart).state.gameState = GameState.MAIN
        ↔ (2 * c2_depart.players.length ≤ c2_depart.questions.length
            ∧ 2 * c2_depart.players.length * (c2_depart.players.length - 1)
                ≤ c2_depart.answers.length)) :=
  ⟨by decide, main_entry_guard id id id c2_depart (by decide)⟩

theorem int_from_to_bytes4 (n : Nat) (h : n < 2 ^ 32) :
    int_from_bytes (int_to_bytes4 n) = n := by
  simp [int_to_bytes4, int_from_bytes]
  omega

/-- C5 counterexample: the empty payload encodes to the bare zero length
header, and decoding that header fails (recv_json raises
ConnectionResetError on a zero size), so decode(encode(empty)) does not
return the empty payload. -/
theorem empty_payload_cex :
    encode [] = some [0, 0, 0, 0] ∧ decode [0, 0, 0, 0] = none := by
  decide

/-- C5 (amended): for every NONEMPTY byte payload whose length fits the
4-byte header, the framing codec round-trips: encode prefixes the payload
with its length as a 4-byte big-endian unsigned integer and decode reads
it back exactly. The empty payload is excluded: its zero length is read
as an orderly connection shutdown, not a message. -/
theorem framing_roundtrip (m : List Nat) (h1 : m ≠ []) (h2 : m.length < 2 ^ 32) :
    encode m = some (int_to_bytes4 m.length ++ m)
    ∧ decode (int_to_bytes4 m.length ++ m) = some m := by
  have hlen4 : (int_to_bytes4 m.length).length = 4 := rfl
  have htake : (int_to_bytes4 m.length ++ m).take 4 = int_to_bytes4 m.length := by
    rw [← hlen4]; exact List.take_left _ _
  have hdrop : (int_to_bytes4 m.length ++ m).drop 4 = m := by
    rw [← hlen4]; exact List.drop_left _ _
  have hlen : (int_to_bytes4 m.length ++ m).length = 4 + m.length := by
    simp [hlen4]
  have hm : 0 < m.length := List.length_pos.mpr h1
  constructor
  · unfold encode
    rw [if_pos h2]
  · unfold decode
    rw [htake, hlen, int_from_to_bytes4 m.length h2, hdrop]
    have c1 : ¬ 4 + m.length < 4 := by omega
    have c2 : ¬ m.length = 0 := by omega
    have c3 : ¬ 4 + m.length < 4 + m.length := by omega
    rw [if_neg c1, if_neg c2, if_neg c3, List.take_length]

theorem play_turn_loop_eq (c : Player) (q : String) (rest : List Player) :
    ∀ (ans : List String) (acc : List (String × Msg)), rest.length ≤ ans.length →
    play_turn_loop c q rest ans acc
      = (ans.take (ans.length - rest.length),
         acc ++ (rest.zip ((ans.drop (ans.length - rest.length)).reverse)).map
             (fun pa => (pa.1.id, Msg.NewTurn false (c.id, c.name) q (some pa.2)))
           ++ [(c.id, Msg.NewTurn true (c.id, c.name) q none)],
         false) := by
  induction rest with
  | nil =>
      intro ans acc _
      simp [play_turn_loop]
  | cons p r ih =>
      intro ans acc h
      rcases List.eq_nil_or_concat ans with rfl | ⟨ys, y, rfl⟩
      · simp at h
      · have hle : r.length ≤ ys.length := by
          simp at h; omega
        have hstep : play_turn_loop c q (p :: r) (ys ++ [y]) acc
            = play_turn_loop c q r ys
                (acc ++ [(p.id, Msg.NewTurn false (c.id, c.name) q (some y))]) := by
          simp [play_turn_loop]
        have hd : (ys ++ [y]).length - (p :: r).length = ys.length - r.length := by
          simp
        have htake : (ys ++ [y]).take (ys.length - r.length)
            = ys.take (ys.length - r.length) := by
          rw [List.take_append_eq_append_take]
          have h0 : ys.length - r.length - ys.length = 0 := by omega
          rw [h0]
          simp
        have hdrop : (ys ++ [y]).drop (ys.length - r.length)
            = ys.drop (ys.length - r.length) ++ [y] := by
          rw [List.drop_append_eq_append_drop]
          have h0 : ys.length - r.length - ys.length = 0 := by omega
          rw [h0]
          simp
        have hconcat : ys.concat y = ys ++ [y] := List.concat_eq_append ys y
        rw [hconcat] at *
        rw [hstep, ih ys _ hle, hd, htake, hdrop]
        simp [List.reverse_append, List.append_assoc]

theorem play_turn_eq (s : ServerState) (c : Player) (ps : List Player)
    (q : String) (qs : List String)
    (hp : s.players = ps ++ [c]) (hq : s.questions = qs ++ [q])
    (h : ps.length ≤ s.answers.length) :
    play_turn s
      = ⟨⟨s.gameState, c :: ps, qs, s.answers.take (s.answers.length - ps.length)⟩,
         (ps.zip ((s.answers.drop (s.answers.length - ps.length)).reverse)).map
             (fun pa => (pa.1.id, Msg.NewTurn false (c.id, c.name) q (some pa.2)))
           ++ [(c.id, Msg.NewTurn true (c.id, c.name) q none)],
         [], false⟩ := by
  unfold play_turn
  rw [hq]
  simp only [List.getLast?_concat, List.dropLast_concat]
  rw [hp]
  simp only [List.getLast?_concat, List.dropLast_concat]
  rw [play_turn_loop_eq c q ps s.answers [] h]
  simp

theorem play_turn_loop_raises (c : Player) (q : String) (rest : List Player) :
    ∀ (ans : List String) (acc : List (String × Msg)), ans.length < rest.length →
    (play_turn_loop c q rest ans acc).2.2 = true := by
  induction rest with
  | nil => intro ans acc h; simp at h
  | cons p r ih =>
      intro ans acc h
      rcases List.eq_nil_or_concat ans with rfl | ⟨ys, y, rfl⟩
      · simp [play_turn_loop]
      · have hconcat : ys.concat y = ys ++ [y] := List.concat_eq_append ys y
        rw [hconcat] at *
        have hstep : play_turn_loop c q (p :: r) (ys ++ [y]) acc
            = play_turn_loop c q r ys
                (acc ++ [(p.id, Msg.NewTurn false (c.id, c.name) q (some y))]) := by
          simp [play_turn_loop]
        rw [hstep]
        apply ih
        simp at h
        omega

theorem play_turn_raises (s : ServerState) (c : Player) (ps : List Player)
    (q : String) (qs : List String)
    (hp : s.players = ps ++ [c]) (hq : s.questions = qs ++ [q])
    (h : s.answers.length < ps.length) :
    (play_turn s).raised = true := by
  unfold play_turn
  rw [hq]
  simp only [List.getLast?_concat, List.dropLast_concat]
  rw [hp]
  simp only [List.getLast?_concat, List.dropLast_concat]
  exact play_turn_loop_raises c q ps s.answers [] h

theorem find_id_exists (l : List Player) (wid : String) (h : wid ∈ l.map Player.id) :
    ∃ w, l.find? (fun p => p.id == wid) = some w := by
  induction l with
  | nil => simp at h
  | cons p ps ih =>
      by_cases hp : p.id = wid
      · exact ⟨p, by simp [List.find?, hp]⟩
      · have h2 : wid ∈ ps.map Player.id := by
          simp at h
          rcases h with h | h
          · exact absurd h.symm hp
          · exact List.mem_map.mpr h
        rcases ih h2 with ⟨w, hw⟩
        have hb : (p.id == wid) = false := by simp [hp]
        exact ⟨w, by simp [List.find?, hb, hw]⟩

theorem bump_first_length (wid : String) (l : List Player) :
    (bump_first wid l).length = l.length := by
  induction l with
  | nil => rfl
  | cons p ps ih =>
      unfold bump_first
      by_cases hp : p.id = wid
      · simp [hp]
      · simp [hp, ih]

/-- C4 (amended): a turn pops one question from the pool and pops the
current player from the TAIL of the ring, prepending them to the head;
every remaining player, in ring order, is sent a NewTurn notice carrying
one answer popped from the pool and the non-actor flag; the current
player is sent a NewTurn notice with answer null and the actor flag; so
after the turn the acting player sits at the ring head and successive
turns consume the ring from the tail, preserving round-robin order. -/
theorem turn_engine_rotation (s : ServerState) (c : Player) (ps : List Player)
    (q : String) (qs : List String)
    (hp : s.players = ps ++ [c]) (hq : s.questions = qs ++ [q])
    (h : ps.length ≤ s.answers.length) :
    play_turn s
      = ⟨⟨s.gameState, c :: ps, qs, s.answers.take (s.answers.length - ps.length)⟩,
         (ps.zip ((s.answers.drop (s.answers.length - ps.length)).reverse)).map
             (fun pa => (pa.1.id, Msg.NewTurn false (c.id, c.name) q (some pa.2)))
           ++ [(c.id, Msg.NewTurn true (c.id, c.name) q none)],
         [], false⟩ :=
  play_turn_eq s c ps q qs hp hq h

theorem turn_engine_rotation_wit :
    turn_state.players = [p1, p2] ++ [p3]
    ∧ turn_state.questions = [] ++ ["q0"]
    ∧ ([p1, p2] : List Player).length ≤ turn_state.answers.length
    ∧ play_turn turn_state
      = ⟨⟨turn_state.gameState, p3 :: [p1, p2], [],
          turn_state.answers.take
            (turn_state.answers.length - ([p1, p2] : List Player).length)⟩,
         (([p1, p2] : List Player).zip ((turn_state.answers.drop
              (turn_state.answers.length - ([p1, p2] : List Player).length)).reverse)).map
             (fun pa => (pa.1.id, Msg.NewTurn false (p3.id, p3.name) "q0" (some pa.2)))
           ++ [(p3.id, Msg.NewTurn true (p3.id, p3.name) "q0" none)],
         [], false⟩ :=
  ⟨by decide, by decide, by decide,
    turn_engine_rotation turn_state p3 [p1, p2] "q0" [] (by decide) (by decide) (by decide)⟩

/-- C9 (amended): when the answer pool is exhausted before every
non-current player has received a decoy, the turn engine raises
IndexError, but the raise is NOT fatal to the process: the per-command
try/except of the read loop catches (and merely logs) it, and the
connection loop continues, leaving the turn's partial effects in place. -/
theorem answer_underflow_is_caught
    (shufP : List Player → List Player) (shufQ shufA : List String → List String)
    (sender : Player) (wid : String) (s : ServerState)
    (h0 : Player) (rest : List Player) (hps : s.players = h0 :: rest)
    (hsender : sender.id = h0.id)
    (hw : wid ∈ s.players.map Player.id)
    (hq : s.questions ≠ [])
    (hans : s.answers.length < rest.length) :
    (handle_Vote sender wid s).raised = true
    ∧ (dispatch shufP shufQ shufA sender (ClientMsg.Vote wid) s).caughtExc = true
    ∧ (dispatch shufP shufQ shufA sender (ClientMsg.Vote wid) s).loopContinues = true := by
  have hmain : (handle_Vote sender wid s).raised = true := by
    rcases find_id_exists s.players wid hw with ⟨w, hfind⟩
    unfold handle_Vote
    rw [hps] at hfind ⊢
    dsimp only
    rw [if_pos hsender, hfind]
    dsimp only
    have hqlen : ¬ s.questions.length = 0 := by
      simpa [List.length_eq_zero] using hq
    rw [if_neg hqlen]
    dsimp only
    set ps2 := bump_first wid (h0 :: rest) with hps2
    have hne : ps2 ≠ [] := by
      intro he
      have hl := bump_first_length wid (h0 :: rest)
      rw [← hps2, he] at hl
      simp at hl
    rcases List.eq_nil_or_concat ps2 with he | ⟨front, c, hfc⟩
    · exact absurd he hne
    · rcases List.eq_nil_or_concat s.questions with he | ⟨qs, q, hqq⟩
      · exact absurd he hq
      · apply play_turn_raises _ c front q qs
        · simpa using hfc
        · simpa using hqq
        · have hlen : front.length + 1 = ps2.length := by
            rw [hfc]; simp
          have hl2 : ps2.length = rest.length + 1 := by
            rw [hps2, bump_first_length]; simp
          simp only []
          omega
  exact ⟨hmain, hmain, rfl⟩

theorem answer_underflow_is_caught_wit :
    starve_state.players = p1 :: [p2, p3]
    ∧ p1.id = p1.id
    ∧ "P2" ∈ starve_state.players.map Player.id
    ∧ starve_state.questions ≠ []
    ∧ starve_state.answers.length < ([p2, p3] : List Player).length
    ∧ ((handle_Vote p1 "P2" starve_state).raised = true
        ∧ (dispatch id id id p1 (ClientMsg.Vote "P2") starve_state).caughtExc = true
        ∧ (dispatch id id id p1 (ClientMsg.Vote "P2") starve_state).loopContinues = true) :=
  ⟨by decide, rfl, by decide, by decide, by decide,
    answer_underflow_is_caught id id id p1 "P2" starve_state p1 [p2, p3]
      (by decide) rfl (by decide) (by decide) (by decide)⟩

theorem framing_roundtrip_wit :
    ([7, 8] : List Nat) ≠ []
    ∧ ([7, 8] : List Nat).length < 2 ^ 32
    ∧ (encode [7, 8] = some (int_to_bytes4 ([7, 8] : List Nat).length ++ [7, 8])
        ∧ decode (int_to_bytes4 ([7, 8] : List Nat).length ++ [7, 8]) = some [7, 8]) :=
  ⟨by decide, by decide, framing_roundtrip [7, 8] (by decide) (by decide)⟩




theorem insert_desc_perm (x : Player) (l : List Player) :
    (insert_desc x l).Perm (x :: l) := by
  induction l with
  | nil => simp [insert_desc]
  | cons y ys ih =>
      unfold insert_desc
      by_cases hc : x.score < y.score
      · rw [if_pos hc]
        exact (ih.cons y).trans (List.Perm.swap x y ys)
      · rw [if_neg hc]

theorem sorted_by_score_desc_perm (l : List Player) :
    (sorted_by_score_desc l).Perm l := by
  induction l with
  | nil => simp [sorted_by_score_desc]
  | cons x xs ih =>
      exact (insert_desc_perm x (sorted_by_score_desc xs)).trans (ih.cons x)

theorem insert_desc_pairwise (x : Player) (l : List Player)
    (h : l.Pairwise (fun a b => b.score ≤ a.score)) :
    (insert_desc x l).Pairwise (fun a b => b.score ≤ a.score) := by
  induction l with
  | nil => simp [insert_desc]
  | cons y ys ih =>
      rcases List.pairwise_cons.mp h with ⟨hy, hys⟩
      unfold insert_desc
      by_cases hc : x.score < y.score
      · rw [if_pos hc]
        refine List.pairwise_cons.mpr ⟨?_, ih hys⟩
        intro z hz
        have hz2 : z = x ∨ z ∈ ys := by
          have hm := (insert_desc_perm x ys).mem_iff.mp hz
          simpa using hm
        rcases hz2 with rfl | hz2
        · exact le_of_lt hc
        · exact hy z hz2
      · rw [if_neg hc]
        refine List.pairwise_cons.mpr ⟨?_, h⟩
        intro z hz
        rcases List.mem_cons.mp hz with rfl | hz2
        · omega
        · have := hy z hz2
          omega

theorem sorted_by_score_desc_pairwise (l : List Player) :
    (sorted_by_score_desc l).Pairwise (fun a b => b.score ≤ a.score) := by
  induction l with
  | nil => simp [sorted_by_score_desc]
  | cons x xs ih => exact insert_desc_pairwise x _ ih

theorem filter_insert_desc (x : Player) (l : List Player) (k : Nat) :
    (insert_desc x l).filter (fun p => p.score == k)
      = if x.score = k then x :: l.filter (fun p => p.score == k)
        else l.filter (fun p => p.score == k) := by
  induction l with
  | nil =>
      by_cases hx : x.score = k
      · simp [insert_desc, List.filter, hx]
      · have hb : (x.score == k) = false := by simp [hx]
        simp [insert_desc, List.filter, hb, hx]
  | cons y ys ih =>
      unfold insert_desc
      by_cases hc : x.score < y.score
      · rw [if_pos hc]
        by_cases hx : x.score = k
        · have hy : ¬ y.score = k := by omega
          simp [List.filter_cons, hx, hy, ih]
        · simp [List.filter_cons, hx, ih]
      · rw [if_neg hc]
        by_cases hx : x.score = k
        · simp [List.filter_cons, hx]
        · simp [List.filter_cons, hx]

theorem filter_sorted_by_score_desc (l : List Player) (k : Nat) :
    (sorted_by_score_desc l).filter (fun p => p.score == k)
      = l.filter (fun p => p.score == k) := by
  induction l with
  | nil => rfl
  | cons x xs ih =>
      rw [show sorted_by_score_desc (x :: xs) = insert_desc x (sorted_by_score_desc xs) from rfl,
        filter_insert_desc]
      by_cases hx : x.score = k
      · simp [hx, ih, List.filter_cons]
      · simp [hx, ih, List.filter_cons]

theorem bump_first_ids (wid : String) (l : List Player) :
    (bump_first wid l).map Player.id = l.map Player.id := by
  induction l with
  | nil => rfl
  | cons p ps ih =>
      unfold bump_first
      by_cases hp : p.id = wid
      · simp [hp]
      · simp [hp, ih]

theorem bump_first_entries (wid : String) (l : List Player)
    (hnd : (l.map Player.id).Nodup) (hmem : wid ∈ l.map Player.id) :
    (bump_first wid l).map (fun p => (p.id, p.name, p.score))
      = l.map (fun p => (p.id, p.name, if p.id = wid then p.score + 1 else p.score)) := by
  induction l with
  | nil => simp at hmem
  | cons p ps ih =>
      rw [List.map_cons] at hnd
      have hcons := List.nodup_cons.mp hnd
      unfold bump_first
      by_cases hp : p.id = wid
      · rw [if_pos hp]
        simp only [List.map_cons]
        congr 1
        · simp [hp]
        · symm
          apply List.map_congr_left
          intro q hq
          have hone : q.id ≠ wid := by
            intro he
            exact hcons.1 (by rw [hp, ← he]; exact List.mem_map.mpr ⟨q, hq, rfl⟩)
          simp [hone]
      · rw [if_neg hp]
        simp only [List.map_cons]
        congr 1
        · simp [hp]
        · apply ih hcons.2
          simp at hmem
          rcases hmem with hmem | hmem
          · exact absurd hmem.symm hp
          · exact List.mem_map.mpr hmem
/-- C1: in a MAIN-phase game with a nonempty ring, a Vote from any player
other than the ring head is a complete silent no-op (state, scores and
phase untouched, nothing sent), while a Vote from the ring head
increments the voted player's score by exactly one in the broadcast
scoreboard and advances the engine: a next turn when questions remain
(phase stays MAIN, the question pool shrinks by one, a your-turn NewTurn
goes out), else the game-over path, which assigns ENDED (and then the
reset assigns LOBBY) and broadcasts GameOver to every player. -/
theorem vote_gated_by_ring_head (sender : Player) (wid : String) (s : ServerState)
    (hphase : s.gameState = GameState.MAIN)
    (h0 : Player) (rest : List Player) (hps : s.players = h0 :: rest)
    (hw : wid ∈ s.players.map Player.id)
    (hnd : (s.players.map Player.id).Nodup)
    (hans : rest.length ≤ s.answers.length) :
    (sender.id ≠ h0.id → handle_Vote sender wid s = ⟨s, [], [], false⟩)
    ∧ (sender.id = h0.id →
        (∃ w, ∀ p ∈ s.players,
          (p.id, Msg.UpdateScore
              (s.players.map fun r => (r.id, r.name, if r.id = wid then r.score + 1 else r.score)) w)
            ∈ (handle_Vote sender wid s).sent)
        ∧ (s.questions ≠ [] →
            (handle_Vote sender wid s).state.gameState = GameState.MAIN
            ∧ (handle_Vote sender wid s).state.questions.length + 1 = s.questions.length
            ∧ (handle_Vote sender wid s).raised = false
            ∧ ∃ c : Player, ∃ q : String,
                (c.id, Msg.NewTurn true (c.id, c.name) q none) ∈ (handle_Vote sender wid s).sent)
        ∧ (s.questions = [] →
            (handle_Vote sender wid s).trace = [GameState.ENDED, GameState.LOBBY]
            ∧ ∃ entries w2, ∀ p ∈ s.players,
                (p.id, Msg.GameOver entries w2) ∈ (handle_Vote sender wid s).sent)) := by
  rcases s with ⟨g, pl, qu, an⟩
  dsimp only at hphase hps hw hnd hans ⊢
  subst hphase
  subst hps
  rcases find_id_exists (h0 :: rest) wid hw with ⟨w, hfind⟩
  constructor
  · intro hs
    unfold handle_Vote
    dsimp only
    rw [if_neg hs]
  · intro hs
    have hunf : handle_Vote sender wid ⟨GameState.MAIN, h0 :: rest, qu, an⟩
        = (if qu.length = 0 then
            ⟨(summarize_game ⟨GameState.MAIN, bump_first wid (h0 :: rest), qu, an⟩).state,
              broadcast (bump_first wid (h0 :: rest))
                  (Msg.UpdateScore ((bump_first wid (h0 :: rest)).map fun p => (p.id, p.name, p.score))
                    (w.id, w.name))
                ++ (summarize_game ⟨GameState.MAIN, bump_first wid (h0 :: rest), qu, an⟩).sent,
              (summarize_game ⟨GameState.MAIN, bump_first wid (h0 :: rest), qu, an⟩).trace,
              (summarize_game ⟨GameState.MAIN, bump_first wid (h0 :: rest), qu, an⟩).raised⟩
          else
            ⟨(play_turn ⟨GameState.MAIN, bump_first wid (h0 :: rest), qu, an⟩).state,
              broadcast (bump_first wid (h0 :: rest))
                  (Msg.UpdateScore ((bump_first wid (h0 :: rest)).map fun p => (p.id, p.name, p.score))
                    (w.id, w.name))
                ++ (play_turn ⟨GameState.MAIN, bump_first wid (h0 :: rest), qu, an⟩).sent,
              (play_turn ⟨GameState.MAIN, bump_first wid (h0 :: rest), qu, an⟩).trace,
              (play_turn ⟨GameState.MAIN, bump_first wid (h0 :: rest), qu, an⟩).raised⟩) := by
      unfold handle_Vote
      dsimp only
      rw [if_pos hs, hfind]
    have hids := bump_first_ids wid (h0 :: rest)
    have hscores := bump_first_entries wid (h0 :: rest) hnd hw
    have hblen : (bump_first wid (h0 :: rest)).length = rest.length + 1 := by
      rw [bump_first_length]; rfl
    refine ⟨?_, ?_, ?_⟩
    · -- UpdateScore broadcast with the +1 scoreboard
      refine ⟨(w.id, w.name), ?_⟩
      intro p hp
      have hmem : p.id ∈ (bump_first wid (h0 :: rest)).map Player.id := by
        rw [hids]
        exact List.mem_map.mpr ⟨p, hp, rfl⟩
      have hbm := broadcast_mem (bump_first wid (h0 :: rest))
        (Msg.UpdateScore ((bump_first wid (h0 :: rest)).map fun p => (p.id, p.name, p.score))
          (w.id, w.name)) p.id hmem
      rw [hunf]
      by_cases hq0 : qu.length = 0
      · rw [if_pos hq0]
        dsimp only
        rw [← hscores]
        exact List.mem_append_left _ hbm
      · rw [if_neg hq0]
        dsimp only
        rw [← hscores]
        exact List.mem_append_left _ hbm
    · -- questions remain: a next turn is played
      intro hqne
      have hq0 : ¬ qu.length = 0 := by
        simpa [List.length_eq_zero] using hqne
      rw [hunf, if_neg hq0]
      rcases List.eq_nil_or_concat qu with rfl | ⟨qs, q, hqq⟩
      · exact absurd rfl hqne
      · rcases List.eq_nil_or_concat (bump_first wid (h0 :: rest)) with hbe | ⟨front, c, hfc⟩
        · rw [hbe] at hblen; simp at hblen
        · have hfl : front.length = rest.length := by
            have : front.length + 1 = rest.length + 1 := by
              rw [← hblen, hfc]; simp
            omega
          have hpt := play_turn_eq ⟨GameState.MAIN, bump_first wid (h0 :: rest), qu, an⟩
            c front q qs (by simpa using hfc) (by simpa using hqq) (by simpa [hfl] using hans)
          rw [hpt]
          refine ⟨rfl, ?_, rfl, ?_⟩
          · dsimp only
            rw [hqq]
            simp
          · exact ⟨c, q, List.mem_append_right _ (List.mem_append_right _ (by simp))⟩
    · -- no questions left: game over path
      intro hqe
      subst hqe
      rw [hunf, if_pos (List.length_nil : ([] : List String).length = 0)]
      have hsort := sorted_by_score_desc_perm (bump_first wid (h0 :: rest))
      cases hord : sorted_by_score_desc (bump_first wid (h0 :: rest)) with
      | nil =>
          rw [hord] at hsort
          have := hsort.length_eq
          rw [hblen] at this
          simp at this
      | cons w2 os =>
          have hsum : summarize_game ⟨GameState.MAIN, bump_first wid (h0 :: rest), [], an⟩
              = ⟨reset_game ⟨GameState.ENDED, bump_first wid (h0 :: rest), [], an⟩,
                  broadcast (bump_first wid (h0 :: rest))
                    (Msg.GameOver ((w2 :: os).map fun p => (p.id, p.name, p.score))
                      (w2.id, w2.name, w2.score)),
                  [GameState.ENDED, GameState.LOBBY], false⟩ := by
            unfold summarize_game set_ended
            dsimp only
            rw [hord]
          rw [hsum]
          refine ⟨rfl, ⟨(w2 :: os).map fun p => (p.id, p.name, p.score),
            (w2.id, w2.name, w2.score), ?_⟩⟩
          intro p hp
          have hmem : p.id ∈ (bump_first wid (h0 :: rest)).map Player.id := by
            rw [hids]
            exact List.mem_map.mpr ⟨p, hp, rfl⟩
          exact List.mem_append_right _ (broadcast_mem _ _ p.id hmem)
/-- C7: when the deciding vote arrives with the question pool exhausted,
the engine enters ENDED (first game_state assignment of the call; the
reset that follows assigns LOBBY), broadcasts to every player a GameOver
scoreboard listing the players ranked by the stable descending sort of
their final scores - a permutation of the ring, sorted by score
descending, ties keeping their prior relative order. -/
theorem game_over_ranking (sender : Player) (wid : String) (s : ServerState)
    (hphase : s.gameState = GameState.MAIN)
    (h0 : Player) (rest : List Player) (hps : s.players = h0 :: rest)
    (hsender : sender.id = h0.id)
    (hq : s.questions = [])
    (hw : wid ∈ s.players.map Player.id) :
    (handle_Vote sender wid s).trace = [GameState.ENDED, GameState.LOBBY]
    ∧ (handle_Vote sender wid s).raised = false
    ∧ (∃ w2, ∀ p ∈ s.players,
        (p.id, Msg.GameOver
            ((sorted_by_score_desc (bump_first wid s.players)).map fun r => (r.id, r.name, r.score))
            w2)
          ∈ (handle_Vote sender wid s).sent)
    ∧ (sorted_by_score_desc (bump_first wid s.players)).Perm (bump_first wid s.players)
    ∧ (sorted_by_score_desc (bump_first wid s.players)).Pairwise (fun a b => b.score ≤ a.score)
    ∧ ∀ k, (sorted_by_score_desc (bump_first wid s.players)).filter (fun p => p.score == k)
        = (bump_first wid s.players).filter (fun p => p.score == k) := by
  rcases s with ⟨g, pl, qu, an⟩
  dsimp only at hphase hps hq hw ⊢
  subst hphase
  subst hps
  subst hq
  rcases find_id_exists (h0 :: rest) wid hw with ⟨w, hfind⟩
  have hblen : (bump_first wid (h0 :: rest)).length = rest.length + 1 := by
    rw [bump_first_length]; rfl
  have hids := bump_first_ids wid (h0 :: rest)
  have hunf : handle_Vote sender wid ⟨GameState.MAIN, h0 :: rest, [], an⟩
      = ⟨(summarize_game ⟨GameState.MAIN, bump_first wid (h0 :: rest), [], an⟩).state,
          broadcast (bump_first wid (h0 :: rest))
              (Msg.UpdateScore ((bump_first wid (h0 :: rest)).map fun p => (p.id, p.name, p.score))
                (w.id, w.name))
            ++ (summarize_game ⟨GameState.MAIN, bump_first wid (h0 :: rest), [], an⟩).sent,
          (summarize_game ⟨GameState.MAIN, bump_first wid (h0 :: rest), [], an⟩).trace,
          (summarize_game ⟨GameState.MAIN, bump_first wid (h0 :: rest), [], an⟩).raised⟩ := by
    unfold handle_Vote
    dsimp only
    rw [if_pos hsender, hfind]
    simp
  have hsortp := sorted_by_score_desc_perm (bump_first wid (h0 :: rest))
  cases hord : sorted_by_score_desc (bump_first wid (h0 :: rest)) with
  | nil =>
      rw [hord] at hsortp
      have hle := hsortp.length_eq
      rw [hblen] at hle
      simp at hle
  | cons w2 os =>
      have hsum : summarize_game ⟨GameState.MAIN, bump_first wid (h0 :: rest), [], an⟩
          = ⟨reset_game ⟨GameState.ENDED, bump_first wid (h0 :: rest), [], an⟩,
              broadcast (bump_first wid (h0 :: rest))
                (Msg.GameOver ((w2 :: os).map fun p => (p.id, p.name, p.score))
                  (w2.id, w2.name, w2.score)),
              [GameState.ENDED, GameState.LOBBY], false⟩ := by
        unfold summarize_game set_ended
        dsimp only
        rw [hord]
      rw [hunf, hsum]
      refine ⟨rfl, rfl, ?_, ?_, ?_, ?_⟩
      · refine ⟨(w2.id, w2.name, w2.score), ?_⟩
        intro p hp
        have hmem : p.id ∈ (bump_first wid (h0 :: rest)).map Player.id := by
          rw [hids]
          exact List.mem_map.mpr ⟨p, hp, rfl⟩
        exact List.mem_append_right _ (broadcast_mem _ _ p.id hmem)
      · rw [← hord]
        exact sorted_by_score_desc_perm _
      · rw [← hord]
        exact sorted_by_score_desc_pairwise _
      · intro k
        rw [← hord]
        exact filter_sorted_by_score_desc _ k

theorem game_over_ranking_wit :
    (last_vote_state.gameState = GameState.MAIN
      ∧ last_vote_state.players = p1 :: [p2, p3]
      ∧ p1.id = p1.id
      ∧ last_vote_state.questions = []
      ∧ "P2" ∈ last_vote_state.players.map Player.id)
    ∧ ((handle_Vote p1 "P2" last_vote_state).trace = [GameState.ENDED, GameState.LOBBY]
      ∧ (handle_Vote p1 "P2" last_vote_state).raised = false
      ∧ (∃ w2, ∀ p ∈ last_vote_state.players,
          (p.id, Msg.GameOver
              ((sorted_by_score_desc (bump_first "P2" last_vote_state.players)).map
                fun r => (r.id, r.name, r.score)) w2)
            ∈ (handle_Vote p1 "P2" last_vote_state).sent)
      ∧ (sorted_by_score_desc (bump_first "P2" last_vote_state.players)).Perm
          (bump_first "P2" last_vote_state.players)
      ∧ (sorted_by_score_desc (bump_first "P2" last_vote_state.players)).Pairwise
          (fun a b => b.score ≤ a.score)
      ∧ ∀ k, (sorted_by_score_desc (bump_first "P2" last_vote_state.players)).filter
            (fun p => p.score == k)
          = (bump_first "P2" last_vote_state.players).filter (fun p => p.score == k)) :=
  ⟨⟨by decide, by decide, rfl, by decide, by decide⟩,
    game_over_ranking p1 "P2" last_vote_state (by decide) p1 [p2, p3]
      (by decide) rfl (by decide) (by decide)⟩
theorem vote_gated_by_ring_head_wit :
    (vote_state.gameState = GameState.MAIN
      ∧ vote_state.players = p1 :: [p2, p3]
      ∧ "P2" ∈ vote_state.players.map Player.id
      ∧ (vote_state.players.map Player.id).Nodup
      ∧ ([p2, p3] : List Player).length ≤ vote_state.answers.length)
    ∧ ((p1.id ≠ p1.id → handle_Vote p1 "P2" vote_state = ⟨vote_state, [], [], false⟩)
      ∧ (p1.id = p1.id →
          (∃ w, ∀ p ∈ vote_state.players,
            (p.id, Msg.UpdateScore
                (vote_state.players.map fun r =>
                  (r.id, r.name, if r.id = "P2" then r.score + 1 else r.score)) w)
              ∈ (handle_Vote p1 "P2" vote_state).sent)
          ∧ (vote_state.questions ≠ [] →
              (handle_Vote p1 "P2" vote_state).state.gameState = GameState.MAIN
              ∧ (handle_Vote p1 "P2" vote_state).state.questions.length + 1
                  = vote_state.questions.length
              ∧ (handle_Vote p1 "P2" vote_state).raised = false
              ∧ ∃ c : Player, ∃ q : String,
                  (c.id, Msg.NewTurn true (c.id, c.name) q none)
                    ∈ (handle_Vote p1 "P2" vote_state).sent)
          ∧ (vote_state.questions = [] →
              (handle_Vote p1 "P2" vote_state).trace = [GameState.ENDED, GameState.LOBBY]
              ∧ ∃ entries w2, ∀ p ∈ vote_state.players,
                  (p.id, Msg.GameOver entries w2) ∈ (handle_Vote p1 "P2" vote_state).sent))) :=
  ⟨⟨by decide, by decide, by decide, by decide, by decide⟩,
    vote_gated_by_ring_head p1 "P2" vote_state (by decide) p1 [p2, p3]
      (by decide) (by decide) (by decide) (by decide)⟩
theorem join_all_spec (ids : List String) (hnd : ids.Nodup) :
    ∀ (s : ServerState), s.gameState = GameState.LOBBY →
    (∀ i ∈ ids, ∀ p ∈ s.players, p.id ≠ i) →
    join_all ids s = { s with players := s.players ++ ids.map (fun i => ⟨i, i, false, 0⟩) } := by
  induction ids with
  | nil =>
      intro s h1 h2
      simp [join_all]
  | cons i restI ih =>
      intro s hls hfresh
      have hnd2 := List.nodup_cons.mp hnd
      have hstep : (handle_Join (mk_player i) i s).state
          = { s with players := s.players ++ [⟨i, i, false, 0⟩] } := by
        unfold handle_Join mk_player
        rw [if_neg (by rw [hls]; exact fun h => h rfl)]
        dsimp only
        have hany : (s.players.any fun p => decide (p.id = i)) = false := by
          rw [List.any_eq_false]
          intro p hp
          simp
          exact hfresh i (by simp) p hp
        rw [if_neg (by rw [hany]; simp)]
      have hfold : join_all (i :: restI) s = join_all restI (handle_Join (mk_player i) i s).state := by
        rfl
      rw [hfold, hstep, ih hnd2.2]
      · simp
      · exact hls
      · intro j hj p hp
        rcases List.mem_append.mp hp with hp2 | hp2
        · exact hfresh j (by simp [hj]) p hp2
        · have : p = ⟨i, i, false, 0⟩ := by simpa using hp2
          rw [this]
          intro he
          exact hnd2.1 (by dsimp at he; rw [he]; exact hj)

theorem join_all_initial (ids : List String) (hnd : ids.Nodup) :
    join_all ids initial_state = ⟨GameState.LOBBY, lobby_roster ids [], [], []⟩ := by
  rw [join_all_spec ids hnd initial_state rfl (by intro i hi p hp; simp [initial_state] at hp)]
  unfold initial_state lobby_roster
  simp

theorem lobby_roster_ids (ids done : List String) :
    (lobby_roster ids done).map Player.id = ids := by
  unfold lobby_roster
  rw [List.map_map]
  exact List.map_id ids

theorem lobby_roster_length (ids done : List String) :
    (lobby_roster ids done).length = ids.length := by
  unfold lobby_roster
  exact List.length_map ids _

theorem roster_set_ready (ids done : List String) (pid : String) :
    (lobby_roster ids done).map (fun p => if p.id = pid then { p with ready := true } else p)
      = lobby_roster ids (done ++ [pid]) := by
  unfold lobby_roster
  rw [List.map_map]
  apply List.map_congr_left
  intro i hi
  by_cases hip : i = pid
  · simp [hip]
  · simp [hip, List.mem_append]

theorem roster_all_ready (ids done : List String) :
    ((lobby_roster ids done).all fun p => p.ready) = ids.all (fun i => decide (i ∈ done)) := by
  unfold lobby_roster
  induction ids with
  | nil => rfl
  | cons i restI ih => simp [ih]

theorem lobby_roster_list (ids done : List String) :
    lobbyPlayerList (lobby_roster ids done) = ids.map fun i => (i, i, decide (i ∈ done)) := by
  unfold lobbyPlayerList lobby_roster
  rw [List.map_map]
  rfl
theorem ready_run_nil (s : ServerState) : ready_run [] s = (s, 0, []) := rfl

theorem ready_run_cons (pid : String) (rest : List String) (s : ServerState) :
    ready_run (pid :: rest) s
      = ((ready_run rest (handle_SetReady pid true s).state).1,
         (handle_SetReady pid true s).trace.count GameState.PREPARATION
           + (ready_run rest (handle_SetReady pid true s).state).2.1,
         (handle_SetReady pid true s).sent
           ++ (ready_run rest (handle_SetReady pid true s).state).2.2) := rfl

theorem ready_run_spec (ids : List String) (hnd : ids.Nodup) (todo : List String) :
    ∀ (done : List String), (done ++ todo).Perm ids → ∀ (qu an : List String),
    (ready_run todo ⟨GameState.LOBBY, lobby_roster ids done, qu, an⟩).1.gameState
        = (if todo ≠ [] ∧ 3 ≤ ids.length then GameState.PREPARATION else GameState.LOBBY)
    ∧ (ready_run todo ⟨GameState.LOBBY, lobby_roster ids done, qu, an⟩).2.1
        = (if todo ≠ [] ∧ 3 ≤ ids.length then 1 else 0)
    ∧ (todo ≠ [] → 3 ≤ ids.length →
        ∀ i ∈ ids,
          (i, Msg.PreparationStarted (ids.map fun j => (j, j, true)) 2 (2 * (ids.length - 1)))
            ∈ (ready_run todo ⟨GameState.LOBBY, lobby_roster ids done, qu, an⟩).2.2) := by
  induction todo with
  | nil =>
      intro done hperm qu an
      exact ⟨by simp [ready_run_nil], by simp [ready_run_nil], by simp⟩
  | cons pid todo2 ih =>
      intro done hperm qu an
      have hnd2 : (done ++ pid :: todo2).Nodup := (hperm.nodup_iff).mpr hnd
      have hros := roster_set_ready ids done pid
      cases todo2 with
      | nil =>
          have hcov : ∀ i ∈ ids, i ∈ done ++ [pid] := by
            intro i hi
            exact (hperm.mem_iff).mpr hi
          have hall : (ids.all fun i => decide (i ∈ done ++ [pid])) = true := by
            rw [List.all_eq_true]
            intro i hi
            simpa using hcov i hi
          have hlist : lobbyPlayerList (lobby_roster ids (done ++ [pid]))
              = ids.map fun j => (j, j, true) := by
            rw [lobby_roster_list]
            apply List.map_congr_left
            intro i hi
            simp [hcov i hi]
          by_cases h3 : 3 ≤ ids.length
          · have hcond : 3 ≤ (lobby_roster ids (done ++ [pid])).length
                ∧ ((lobby_roster ids (done ++ [pid])).all fun p => p.ready) = true := by
              constructor
              · rw [lobby_roster_length]; exact h3
              · rw [roster_all_ready]; exact hall
            have hsr : handle_SetReady pid true ⟨GameState.LOBBY, lobby_roster ids done, qu, an⟩
                = ⟨⟨GameState.PREPARATION, lobby_roster ids (done ++ [pid]), qu, an⟩,
                    broadcast (lobby_roster ids (done ++ [pid]))
                        (Msg.LobbyUpdated (lobbyPlayerList (lobby_roster ids (done ++ [pid]))))
                      ++ broadcast (lobby_roster ids (done ++ [pid]))
                        (Msg.PreparationStarted
                          (lobbyPlayerList (lobby_roster ids (done ++ [pid]))) 2
                          (2 * ((lobby_roster ids (done ++ [pid])).length - 1))),
                    [GameState.PREPARATION], false⟩ := by
              unfold handle_SetReady
              dsimp only
              rw [hros, if_pos hcond]
            refine ⟨?_, ?_, ?_⟩
            · rw [ready_run_cons, hsr, ready_run_nil]
              simp [h3]
            · rw [ready_run_cons, hsr, ready_run_nil]
              simp [h3]
            · intro _ _ i hi
              have hmem : i ∈ (lobby_roster ids (done ++ [pid])).map Player.id := by
                rw [lobby_roster_ids]; exact hi
              have hbm := broadcast_mem (lobby_roster ids (done ++ [pid]))
                (Msg.PreparationStarted (ids.map fun j => (j, j, true)) 2
                  (2 * (ids.length - 1))) i hmem
              rw [ready_run_cons, hsr, ready_run_nil]
              dsimp only
              rw [hlist, lobby_roster_length]
              simp only [List.append_nil]
              exact List.mem_append_right _ hbm
          · have hcond : ¬ (3 ≤ (lobby_roster ids (done ++ [pid])).length
                ∧ ((lobby_roster ids (done ++ [pid])).all fun p => p.ready) = true) := by
              intro hc
              rw [lobby_roster_length] at hc
              exact h3 hc.1
            have hsr : handle_SetReady pid true ⟨GameState.LOBBY, lobby_roster ids done, qu, an⟩
                = ⟨⟨GameState.LOBBY, lobby_roster ids (done ++ [pid]), qu, an⟩,
                    broadcast (lobby_roster ids (done ++ [pid]))
                        (Msg.LobbyUpdated (lobbyPlayerList (lobby_roster ids (done ++ [pid])))),
                    [], false⟩ := by
              unfold handle_SetReady
              dsimp only
              rw [hros, if_neg hcond]
            refine ⟨?_, ?_, ?_⟩
            · rw [ready_run_cons, hsr, ready_run_nil]
              simp [h3]
            · rw [ready_run_cons, hsr, ready_run_nil]
              simp [h3]
            · intro _ h3'
              exact absurd h3' h3
      | cons t0 trest =>
          have hsplit := List.nodup_append.mp hnd2
          have ht0mem : t0 ∈ done ++ pid :: t0 :: trest := by simp
          have ht0ids : t0 ∈ ids := (hperm.mem_iff).mp ht0mem
          have ht0nin : ¬ t0 ∈ done ++ [pid] := by
            intro hmem
            rcases List.mem_append.mp hmem with hd | hp
            · exact hsplit.2.2 hd (by simp)
            · have htail := List.nodup_cons.mp hsplit.2.1
              simp at hp
              exact htail.1 (by rw [hp]; simp)
          have hallf : (ids.all fun i => decide (i ∈ done ++ [pid])) = false := by
            cases hcase : (ids.all fun i => decide (i ∈ done ++ [pid])) with
            | false => rfl
            | true =>
                have hdec := (List.all_eq_true.mp hcase) t0 ht0ids
                exact absurd (of_decide_eq_true hdec) ht0nin
          have hcond : ¬ (3 ≤ (lobby_roster ids (done ++ [pid])).length
              ∧ ((lobby_roster ids (done ++ [pid])).all fun p => p.ready) = true) := by
            intro hc
            have hc2 := hc.2
            rw [roster_all_ready, hallf] at hc2
            cases hc2
          have hsr : handle_SetReady pid true ⟨GameState.LOBBY, lobby_roster ids done, qu, an⟩
              = ⟨⟨GameState.LOBBY, lobby_roster ids (done ++ [pid]), qu, an⟩,
                  broadcast (lobby_roster ids (done ++ [pid]))
                      (Msg.LobbyUpdated (lobbyPlayerList (lobby_roster ids (done ++ [pid])))),
                  [], false⟩ := by
            unfold handle_SetReady
            dsimp only
            rw [hros, if_neg hcond]
          have hperm2 : ((done ++ [pid]) ++ (t0 :: trest)).Perm ids := by
            simpa [List.append_assoc] using hperm
          have hih := ih (done ++ [pid]) hperm2 qu an
          refine ⟨?_, ?_, ?_⟩
          · rw [ready_run_cons, hsr]
            dsimp only
            rw [hih.1]
            simp
          · rw [ready_run_cons, hsr]
            dsimp only
            rw [hih.2.1]
            simp
          · intro _ h3 i hi
            rw [ready_run_cons, hsr]
            dsimp only
            exact List.mem_append_right _ (hih.2.2 (by simp) h3 i hi)
/-- C3: for any set of distinct connections joining a fresh lobby and
then sending SetReady(true) once each, in any order, the transition to
PREPARATION fires exactly when the player count reaches at least 3 and
all are ready (which first happens at the last SetReady); it fires
exactly once - and the whole run stays in LOBBY otherwise, so the single
firing happens from the LOBBY phase - and on firing every player is sent
the PreparationStarted broadcast with quotas #questions = 2 and
#answers = 2*(N-1). -/
theorem lobby_preparation_transition (ids order : List String)
    (hnd : ids.Nodup) (hperm : order.Perm ids) :
    ((ready_run order (join_all ids initial_state)).1.gameState = GameState.PREPARATION
        ↔ 3 ≤ ids.length)
    ∧ ((ready_run order (join_all ids initial_state)).2.1
        = if 3 ≤ ids.length then 1 else 0)
    ∧ (3 ≤ ids.length → ∀ i ∈ ids,
        (i, Msg.PreparationStarted (ids.map fun j => (j, j, true)) 2 (2 * (ids.length - 1)))
          ∈ (ready_run order (join_all ids initial_state)).2.2) := by
  have hjoin := join_all_initial ids hnd
  have hperm0 : ([] ++ order).Perm ids := by simpa using hperm
  have hspec := ready_run_spec ids hnd order [] hperm0 [] []
  rw [hjoin]
  have hord : 3 ≤ ids.length → order ≠ [] := by
    intro h3 he
    rw [he] at hperm
    have hlen := hperm.length_eq
    simp at hlen
    omega
  refine ⟨?_, ?_, ?_⟩
  · rw [hspec.1]
    by_cases h3 : 3 ≤ ids.length
    · simp [h3, hord h3]
    · simp [h3]
  · rw [hspec.2.1]
    by_cases h3 : 3 ≤ ids.length
    · simp [h3, hord h3]
    · simp [h3]
  · intro h3 i hi
    exact hspec.2.2 (hord h3) h3 i hi

theorem lobby_preparation_transition_wit :
    (["A", "B", "C"] : List String).Nodup
    ∧ (["B", "C", "A"] : List String).Perm ["A", "B", "C"]
    ∧ (((ready_run ["B", "C", "A"] (join_all ["A", "B", "C"] initial_state)).1.gameState
          = GameState.PREPARATION ↔ 3 ≤ (["A", "B", "C"] : List String).length)
      ∧ ((ready_run ["B", "C", "A"] (join_all ["A", "B", "C"] initial_state)).2.1
          = if 3 ≤ (["A", "B", "C"] : List String).length then 1 else 0)
      ∧ (3 ≤ (["A", "B", "C"] : List String).length → ∀ i ∈ (["A", "B", "C"] : List String),
          (i, Msg.PreparationStarted
              ((["A", "B", "C"] : List String).map fun j => (j, j, true)) 2
              (2 * ((["A", "B", "C"] : List String).length - 1)))
            ∈ (ready_run ["B", "C", "A"] (join_all ["A", "B", "C"] initial_state)).2.2)) :=
  ⟨by decide, by decide,
    lobby_preparation_transition ["A", "B", "C"] ["B", "C", "A"] (by decide) (by decide)⟩
